import Mathlib

/-!
Shallow embedding of the LangGraph query-resolution pipeline
(`src/langgraph_agent`): the intent-node extraction normalizer, the three
resolver nodes (profile attributes, events, event attributes), the result
aggregator, and the graph wiring, together with the parts of the Milvus
client they call.  Scores are modelled as rationals; embeddings and the
vector store are opaque collaborators passed in as functions.
-/

/- The library marks the rational-number operations irreducible, which
blocks the evaluation of concrete scenarios; restore the default
reducibility for this development. -/
attribute [local semireducible] Rat.mul Rat.add Rat.sub Rat.inv Rat.ofScientific

/-- One raw hit returned by a vector-store search (the result dict built by
`MilvusClient.search_collection`): `id` and `score` are always present, the
output fields may be missing from the dict, hence `Option`. -/
structure SearchHit where
  id : Nat
  score : ℚ
  source_type : Option String := none
  source : Option String := none
  source_name : Option String := none
  idname : Option String := none
  raw_metadata : Option String := none
deriving Repr, DecidableEq

/-- The `matched_field` dict built by the resolver nodes.  `has_ambiguity` is a
key written only by the profile and event-attribute nodes, hence `Option`:
`none` models the key being absent from the dict. -/
structure MatchedField where
  id : Nat
  score : ℚ
  source_type : String
  source : String
  source_name : String
  idname : String
  raw_metadata : String
  has_ambiguity : Option Bool := none
deriving Repr, DecidableEq

/-- A canonical person-attribute query produced by the intent node:
`{"attribute_name": ..., "query_text": ...}`. -/
structure ProfileAttrQ where
  attribute_name : String
  query_text : String
deriving Repr, DecidableEq

/-- A canonical event query produced by the intent node:
`{"event_description": ..., "event_attributes": [...]}`. -/
structure EventQ where
  event_description : String
  event_attributes : List String
deriving Repr, DecidableEq

/-- One element of `profile_results` as built by `search_profiles_node`. -/
structure ProfileResult where
  matched_field : MatchedField
  original_query : String
  original_attribute : String
deriving Repr, DecidableEq

/-- One element of `event_results` as built by `search_events_node`. -/
structure EventResult where
  matched_field : MatchedField
  original_query : String
  event_attributes : List String
deriving Repr, DecidableEq

/-- One element of `event_attr_results` as built by
`search_event_attributes_node`.  The node writes the keys `source` (parent
event idname) and `event_name`; it never writes an `event_idname` key, which
is modelled by the `Option` field defaulting to `none`. -/
structure EventAttrResult where
  matched_field : MatchedField
  original_query : String
  source : String
  event_name : String
  event_idname : Option String := none
deriving Repr, DecidableEq

/-- The external collaborators used by the resolver nodes: the embedding
manager (`encode`) and the Milvus client search methods.  `E` is the opaque
embedding type. -/
structure Collaborators (E : Type) where
  encode : List String → List E
  search_profile_attributes : E → Nat → List SearchHit
  search_events : E → Nat → List SearchHit
  search_event_attributes : E → String → Nat → List SearchHit

/-- Python `round(x, 3)` on the modelled rational scores. -/
def round3 (q : ℚ) : ℚ := ((round (q * 1000) : ℤ) : ℚ) / 1000

/-- Python `round(x, 2)`. -/
def round2 (q : ℚ) : ℚ := ((round (q * 100) : ℤ) : ℚ) / 100

/-- Descending-by-score order on raw hits, as used by
`sorted(valid_results, key=lambda x: x["score"], reverse=True)`. -/
def hitGe (a b : SearchHit) : Prop := b.score ≤ a.score

instance : DecidableRel hitGe := fun a b => inferInstanceAs (Decidable (b.score ≤ a.score))

instance : IsTotal SearchHit hitGe := ⟨fun a b => le_total b.score a.score⟩

instance : IsTrans SearchHit hitGe := ⟨fun _ _ _ h₁ h₂ => le_trans h₂ h₁⟩

/-- Python `sorted(hits, key=score, reverse=True)` (a stable sort). -/
def sortHitsDesc (l : List SearchHit) : List SearchHit := List.insertionSort hitGe l

/- ----------------------------------------------------------------------
Intent node (`intent_classification_node`): normalization of the structured
extraction payload into canonical profile-attribute and event queries.
---------------------------------------------------------------------- -/

/-- The two tolerated wire shapes of an attributes payload (dict of
name→value, or list of names), plus anything else. -/
inductive AttrsPayload where
  | adict (entries : List (String × String))
  | alist (names : List String)
  | other
deriving Repr, DecidableEq

/-- One entry of the events list: a dict (with optional `event_type`,
`event_description` and `attributes` keys) or anything else. -/
inductive RawEvent where
  | edict (event_type : Option String) (event_description : Option String)
      (attributes : Option AttrsPayload)
  | other
deriving Repr, DecidableEq

/-- The events payload: a list, or anything else. -/
inductive EventsPayload where
  | elist (entries : List RawEvent)
  | other
deriving Repr, DecidableEq

/-- The `structured_query` mapping returned by the LLM extractor; `none`
models an absent key. -/
structure StructuredQuery where
  person_attributes : Option AttrsPayload := none
  behavioral_events : Option EventsPayload := none
  events : Option EventsPayload := none
deriving Repr, DecidableEq

/-- The profile-attribute parsing loop of `intent_classification_node`
(intent_node.py lines 57-74): a dict yields `"name: value"` query texts, a
list yields the names verbatim, anything else yields nothing. -/
def intentProfileAttributes (sq : StructuredQuery) : List ProfileAttrQ :=
  match sq.person_attributes with
  | none => []
  | some (.adict entries) =>
      entries.map (fun kv => ⟨kv.1, kv.1 ++ ": " ++ kv.2⟩)
  | some (.alist names) => names.map (fun n => ⟨n, n⟩)
  | some .other => []

/-- `event.get("event_type") or event.get("event_description", "")`:
a falsy (missing or empty) `event_type` falls back to `event_description`. -/
def intentEventDesc (et ed : Option String) : String :=
  let t := et.getD ""
  if t = "" then ed.getD "" else t

/-- The attribute texts of one event: a dict yields `"name: value"` texts, a
list is taken verbatim, anything else leaves the initial empty list. -/
def eventAttrTexts (attrs : AttrsPayload) : List String :=
  match attrs with
  | .adict entries => entries.map (fun kv => kv.1 ++ ": " ++ kv.2)
  | .alist names => names
  | .other => []

/-- The event parsing loop of `intent_classification_node` (intent_node.py
lines 76-101): reads `behavioral_events` with `events` as fallback; every
dict entry is appended (non-dict entries are skipped). -/
def intentEvents (sq : StructuredQuery) : List EventQ :=
  let bev := match sq.behavioral_events with
    | some p => p
    | none => sq.events.getD (.elist [])
  match bev with
  | .elist entries =>
      entries.filterMap (fun e =>
        match e with
        | .edict et ed attrs =>
            some ⟨intentEventDesc et ed, eventAttrTexts (attrs.getD (.adict []))⟩
        | .other => none)
  | .other => []

/- ----------------------------------------------------------------------
Resolver nodes.
---------------------------------------------------------------------- -/

/-- The per-query body of the `search_profiles_node` loop (profile_node.py
lines 54-116): filter hits by the similarity threshold, sort descending,
keep only the best, and flag ambiguity when the top-two gap is strictly
below the ambiguity threshold. -/
def processProfileQuery (simTh ambTh : ℚ) (attr : ProfileAttrQ)
    (hits : List SearchHit) : Option ProfileResult :=
  let valid := hits.filter (fun r => decide (simTh ≤ r.score))
  match sortHitsDesc valid with
  | [] => none
  | best :: rest =>
      let hasAmb : Bool :=
        match rest with
        | [] => false
        | second :: _ => decide (best.score - second.score < ambTh)
      some {
        matched_field := {
          id := best.id
          score := best.score
          source_type := best.source_type.getD "PROFILE_ATTRIBUTE"
          source := best.source_name.getD ""
          source_name := best.source_name.getD ""
          idname := best.idname.getD ""
          raw_metadata := best.raw_metadata.getD "\x7b\x7d"
          has_ambiguity := some hasAmb }
        original_query := attr.query_text
        original_attribute := attr.attribute_name }

/-- `search_profiles_node`: batch-encode all query texts, then run the
per-query body; queries with no above-threshold candidate emit nothing. -/
def search_profiles_node {E : Type} (C : Collaborators E) (simTh ambTh : ℚ)
    (profile_attributes : List ProfileAttrQ) : List ProfileResult :=
  let embeddings := C.encode (profile_attributes.map (·.query_text))
  (profile_attributes.zip embeddings).filterMap
    (fun p => processProfileQuery simTh ambTh p.1 (C.search_profile_attributes p.2 5))

/-- The per-query body of the `search_events_node` loop (event_node.py lines
52-98): filter by threshold and keep `max(valid_results, key=score)` (first
maximum on ties); no ambiguity check and no `has_ambiguity` key. -/
def processEventQuery (simTh : ℚ) (ev : EventQ) (hits : List SearchHit) :
    Option EventResult :=
  let valid := hits.filter (fun r => decide (simTh ≤ r.score))
  match valid with
  | [] => none
  | h :: t =>
      let best := t.foldl (fun b r => if b.score < r.score then r else b) h
      some {
        matched_field := {
          id := best.id
          score := best.score
          source_type := best.source_type.getD "EVENT"
          source := best.source.getD ""
          source_name := best.source_name.getD ""
          idname := best.idname.getD ""
          raw_metadata := best.raw_metadata.getD "\x7b\x7d"
          has_ambiguity := none }
        original_query := ev.event_description
        event_attributes := ev.event_attributes }

/-- `search_events_node`: batch-encode the event descriptions and run the
per-query body, carrying each event's declared attribute list forward. -/
def search_events_node {E : Type} (C : Collaborators E) (simTh : ℚ)
    (events : List EventQ) : List EventResult :=
  let embeddings := C.encode (events.map (·.event_description))
  (events.zip embeddings).filterMap
    (fun p => processEventQuery simTh p.1 (C.search_events p.2 5))

/-- The per-attribute body of the `search_event_attributes_node` loop
(event_attr_node.py lines 81-155): threshold filter, descending sort, best
pick, ambiguity flag, recording the parent event under the keys `source`
(idname) and `event_name` (display name). -/
def processEventAttrQuery (simTh ambTh : ℚ)
    (event_source event_source_name attr_query : String)
    (hits : List SearchHit) : Option EventAttrResult :=
  let valid := hits.filter (fun r => decide (simTh ≤ r.score))
  match sortHitsDesc valid with
  | [] => none
  | best :: rest =>
      let hasAmb : Bool :=
        match rest with
        | [] => false
        | second :: _ => decide (best.score - second.score < ambTh)
      some {
        matched_field := {
          id := best.id
          score := best.score
          source_type := best.source_type.getD "EVENT_ATTRIBUTE"
          source := best.source.getD event_source
          source_name := best.source_name.getD ""
          idname := best.idname.getD ""
          raw_metadata := best.raw_metadata.getD "\x7b\x7d"
          has_ambiguity := some hasAmb }
        original_query := attr_query
        source := event_source
        event_name := event_source_name }

/-- `search_event_attributes_node`: for each resolved event (skipping events
with an empty idname or no carried attributes) search each attribute query
with the parent event's idname as the scoping filter. -/
def search_event_attributes_node {E : Type} (C : Collaborators E)
    (simTh ambTh : ℚ) (event_results : List EventResult) : List EventAttrResult :=
  event_results.flatMap (fun ev =>
    let event_source := ev.matched_field.idname
    if event_source = "" then []
    else if ev.event_attributes.isEmpty then []
    else
      let query_texts := ev.event_attributes
      (query_texts.zip (C.encode query_texts)).filterMap
        (fun p => processEventAttrQuery simTh ambTh event_source
          ev.matched_field.source_name p.1
          (C.search_event_attributes p.2 event_source 5)))

/- ----------------------------------------------------------------------
The catalog and the modelled event-attribute search.
---------------------------------------------------------------------- -/

/-- One resolvable entity of the metadata catalog, with the Milvus output
fields used by the pipeline; for an event attribute, `source` is the parent
event's idname. -/
structure CatalogField where
  id : Nat
  source_type : String
  source : String
  source_name : String
  idname : String
  raw_metadata : String
deriving Repr, DecidableEq

/-- Modelled from the spec: `MilvusClient.search_event_attributes` is called
by the Event-Attribute Resolver but the method itself is not defined under
src (only `search_profile_attributes` is).  Per the spec's collaborator
contract, `search(vector, partition, filter?, limit)` returns the nearest
entries of the event-attribute partition by similarity, and the filter
scopes the search to the parent event identifier.  `sim` is the opaque
similarity oracle standing for the vector distance. -/
def milvus_search_event_attributes {E : Type} (catalog : List CatalogField)
    (sim : E → CatalogField → ℚ) (emb : E) (source : String) (limit : Nat) :
    List SearchHit :=
  (sortHitsDesc ((catalog.filter
      (fun cf => cf.source_type == "EVENT_ATTRIBUTE" && cf.source == source)).map
    (fun cf => {
      id := cf.id
      score := sim emb cf
      source_type := some cf.source_type
      source := some cf.source
      source_name := some cf.source_name
      idname := some cf.idname
      raw_metadata := some cf.raw_metadata }))).take limit

/- ----------------------------------------------------------------------
Result aggregator (`aggregate_node.py`).
---------------------------------------------------------------------- -/

/-- Access to the `matched_field` sub-dict shared by the three result
shapes, so the three structurally identical aggregation passes can be
written once. -/
class HasMatchedField (α : Type) where
  mf : α → MatchedField

instance : HasMatchedField ProfileResult := ⟨ProfileResult.matched_field⟩

instance : HasMatchedField EventResult := ⟨EventResult.matched_field⟩

instance : HasMatchedField EventAttrResult := ⟨EventAttrResult.matched_field⟩

/-- Descending order by `matched_field.score`, as used by the aggregator's
`sorted(results, key=lambda x: x["matched_field"]["score"], reverse=True)`. -/
def resGe {α : Type} [HasMatchedField α] (a b : α) : Prop :=
  (HasMatchedField.mf b).score ≤ (HasMatchedField.mf a).score

instance {α : Type} [HasMatchedField α] : DecidableRel (resGe (α := α)) :=
  fun a b => inferInstanceAs (Decidable ((HasMatchedField.mf b).score ≤ (HasMatchedField.mf a).score))

instance {α : Type} [HasMatchedField α] : IsTotal α (resGe (α := α)) :=
  ⟨fun a b => le_total (HasMatchedField.mf b).score (HasMatchedField.mf a).score⟩

instance {α : Type} [HasMatchedField α] : IsTrans α (resGe (α := α)) :=
  ⟨fun _ _ _ h₁ h₂ => le_trans h₂ h₁⟩

/-- The aggregator's stable descending sort by score. -/
def sortResultsDesc {α : Type} [HasMatchedField α] (l : List α) : List α :=
  List.insertionSort resGe l

/-- The selection loop shared by `_process_profile_results`,
`_process_event_results` and `_process_event_attr_results`: walk the sorted
list, skipping entries below the threshold or whose id was already seen. -/
def pickGo {α : Type} [HasMatchedField α] (th : ℚ) :
    List α → List Nat → List α
  | [], _ => []
  | r :: rest, seen =>
      if (HasMatchedField.mf r).score < th ∨ (HasMatchedField.mf r).id ∈ seen then
        pickGo th rest seen
      else r :: pickGo th rest ((HasMatchedField.mf r).id :: seen)

/-- Sort descending, deduplicate by id with the threshold filter, and build
the output entries in loop order (the loop body appends one entry per kept
result). -/
def dedupProcess {α β : Type} [HasMatchedField α] (mkE : α → β) (th : ℚ)
    (rs : List α) : List β :=
  (pickGo th (sortResultsDesc rs) []).map mkE

/-- `_get_confidence_level`. -/
def get_confidence_level (score : ℚ) : String :=
  if 85/100 ≤ score then "high" else if 70/100 ≤ score then "medium" else "low"

/-- One entry of the aggregated `profile_attributes` list. -/
structure ProfileEntry where
  idname : String
  source_name : String
  source : String
  original_query : String
  original_attribute : String
  score : ℚ
  confidence_level : String
  explanation : String
deriving Repr, DecidableEq

/-- One entry of the aggregated `events` list. -/
structure EventMatchEntry where
  idname : String
  source_name : String
  source : String
  original_query : String
  score : ℚ
  confidence_level : String
  explanation : String
deriving Repr, DecidableEq

/-- One entry of the aggregated `event_attributes` list.  `event_idname` is
read from the result dict with default `""`. -/
structure EventAttrEntry where
  idname : String
  source_name : String
  event_idname : String
  event_name : String
  original_query : String
  score : ℚ
  confidence_level : String
  explanation : String
deriving Repr, DecidableEq

/-- The entry built for one kept profile result (`_process_profile_results`
loop body). -/
def mkProfileEntry (r : ProfileResult) : ProfileEntry :=
  { idname := r.matched_field.idname
    source_name := r.matched_field.source_name
    source := r.matched_field.source
    original_query := r.original_query
    original_attribute := r.original_attribute
    score := round3 r.matched_field.score
    confidence_level := get_confidence_level r.matched_field.score
    explanation := r.matched_field.raw_metadata }

/-- The entry built for one kept event result (`_process_event_results`). -/
def mkEventEntry (r : EventResult) : EventMatchEntry :=
  { idname := r.matched_field.idname
    source_name := r.matched_field.source_name
    source := r.matched_field.source
    original_query := r.original_query
    score := round3 r.matched_field.score
    confidence_level := get_confidence_level r.matched_field.score
    explanation := r.matched_field.raw_metadata }

/-- The entry built for one kept event-attribute result
(`_process_event_attr_results`): `event_idname` is
`result.get("event_idname", "")` and `event_name` is
`result.get("event_name", event_idname)` (the key is always written by the
node). -/
def mkEventAttrEntry (r : EventAttrResult) : EventAttrEntry :=
  { idname := r.matched_field.idname
    source_name := r.matched_field.source_name
    event_idname := r.event_idname.getD ""
    event_name := r.event_name
    original_query := r.original_query
    score := round3 r.matched_field.score
    confidence_level := get_confidence_level r.matched_field.score
    explanation := r.matched_field.raw_metadata }

/-- `_process_profile_results`. -/
def process_profile_results (th : ℚ) (rs : List ProfileResult) : List ProfileEntry :=
  dedupProcess mkProfileEntry th rs

/-- `_process_event_results`. -/
def process_event_results (th : ℚ) (rs : List EventResult) : List EventMatchEntry :=
  dedupProcess mkEventEntry th rs

/-- `_process_event_attr_results`. -/
def process_event_attr_results (th : ℚ) (rs : List EventAttrResult) : List EventAttrEntry :=
  dedupProcess mkEventAttrEntry th rs

/-- One ambiguity candidate; `event_idname` is a key only the
event-attribute grouping writes. -/
structure AmbCand where
  idname : String
  source_name : String
  score : ℚ
  event_idname : Option String := none
deriving Repr, DecidableEq

/-- One reported ambiguous group. -/
structure AmbOption where
  category : String
  original_query : String
  candidates : List AmbCand
deriving Repr, DecidableEq

/-- `defaultdict(list)` update: append the candidate to its query's group,
creating the group at the end on first occurrence (dict insertion order). -/
def addToGroups (q : String) (c : AmbCand) :
    List (String × List AmbCand) → List (String × List AmbCand)
  | [] => [(q, [c])]
  | g :: rest => if g.1 = q then (g.1, g.2 ++ [c]) :: rest else g :: addToGroups q c rest

/-- The grouping loop of `_detect_ambiguities` for one category: candidates
with score at or above the ambiguity threshold are grouped by their
`original_query`. -/
def buildGroupsGo {α : Type} (th : ℚ) (getQ : α → String) (getScore : α → ℚ)
    (mkCand : α → AmbCand) : List α → List (String × List AmbCand) →
    List (String × List AmbCand)
  | [], gs => gs
  | r :: rest, gs =>
      buildGroupsGo th getQ getScore mkCand rest
        (if th ≤ getScore r then addToGroups (getQ r) (mkCand r) gs else gs)

/-- Group one category's results by source query. -/
def buildGroups {α : Type} (th : ℚ) (getQ : α → String) (getScore : α → ℚ)
    (mkCand : α → AmbCand) (rs : List α) : List (String × List AmbCand) :=
  buildGroupsGo th getQ getScore mkCand rs []

/-- Keep only the groups with more than one candidate, tagged with their
category. -/
def ambiguousOf (category : String) (gs : List (String × List AmbCand)) :
    List AmbOption :=
  gs.filterMap (fun g => if 1 < g.2.length then some ⟨category, g.1, g.2⟩ else none)

/-- The candidate dict built for a profile result (no `event_idname` key). -/
def profileCand (r : ProfileResult) : AmbCand :=
  ⟨r.matched_field.idname, r.matched_field.source_name, round3 r.matched_field.score, none⟩

/-- The candidate dict built for an event result (no `event_idname` key). -/
def eventCand (r : EventResult) : AmbCand :=
  ⟨r.matched_field.idname, r.matched_field.source_name, round3 r.matched_field.score, none⟩

/-- The candidate dict built for an event-attribute result:
`event_idname` is `result.get("event_idname", "")`. -/
def eventAttrCand (r : EventAttrResult) : AmbCand :=
  ⟨r.matched_field.idname, r.matched_field.source_name, round3 r.matched_field.score,
    some (r.event_idname.getD "")⟩

/-- `_detect_ambiguities`: run the grouping over the three original
(pre-dedup) result lists and report every group with at least two
candidates at or above the ambiguity threshold. -/
def detect_ambiguities (pr : List ProfileResult) (er : List EventResult)
    (ear : List EventAttrResult) (th : ℚ) : List AmbOption × Bool :=
  let opts :=
    ambiguousOf "profile"
        (buildGroups th ProfileResult.original_query (fun r => r.matched_field.score) profileCand pr)
      ++ ambiguousOf "event"
        (buildGroups th EventResult.original_query (fun r => r.matched_field.score) eventCand er)
      ++ ambiguousOf "event_attribute"
        (buildGroups th EventAttrResult.original_query (fun r => r.matched_field.score) eventAttrCand ear)
  (opts, decide (0 < opts.length))

/-- `_generate_summary`. -/
def generate_summary (pa : List ProfileEntry) (evs : List EventMatchEntry)
    (eas : List EventAttrEntry) : String :=
  let parts :=
    (if pa.isEmpty then [] else
      ["已识别用户属性: " ++ String.intercalate ", "
        ((pa.take 3).map (fun a => a.source_name ++ "(查询条件:" ++ a.original_query ++ ")"))])
    ++ (if evs.isEmpty then [] else
      ["已识别事件: " ++ String.intercalate ", " ((evs.take 3).map (fun e => e.source_name))])
    ++ (if eas.isEmpty then [] else
      ["已识别事件属性: " ++ String.intercalate ", "
        ((eas.take 3).map (fun a => a.source_name ++ "(事件:" ++ a.event_name ++ ")"))])
  if parts.isEmpty then "未找到匹配的字段" else String.intercalate "; " parts

/-- The `final_result` dict.  `intent_type` and `error` are keys the error
branch respectively normal branch may omit; `execution_time` is written by
`run_agent` after the graph returns. -/
structure FinalResult where
  query : String
  intent_type : Option String := none
  profile_attributes : List ProfileEntry
  events : List EventMatchEntry
  event_attributes : List EventAttrEntry
  summary : String
  total_results : Nat
  confidence_score : ℚ
  has_ambiguity : Bool
  ambiguous_options : List AmbOption
  error : Option String := none
  execution_time : Option ℚ := none
deriving Repr, DecidableEq

/-- The try-body of `aggregate_results_node`: process the three lists,
detect ambiguities over the original lists, compute the mean confidence and
the summary. -/
def aggregate_results_core (query intent_type : String)
    (pr : List ProfileResult) (er : List EventResult) (ear : List EventAttrResult)
    (simTh ambTh : ℚ) : FinalResult :=
  let pa := process_profile_results simTh pr
  let evs := process_event_results simTh er
  let eas := process_event_attr_results simTh ear
  let amb := detect_ambiguities pr er ear ambTh
  let scores := pa.map (·.score) ++ evs.map (·.score) ++ eas.map (·.score)
  let conf := if scores.isEmpty then 0 else scores.sum / (scores.length : ℚ)
  { query := query
    intent_type := some intent_type
    profile_attributes := pa
    events := evs
    event_attributes := eas
    summary := generate_summary pa evs eas
    total_results := pa.length + evs.length + eas.length
    confidence_score := round2 conf
    has_ambiguity := amb.2
    ambiguous_options := amb.1 }

/-- `aggregate_results_node` with its top-level try/except: `exn = some msg`
models an unexpected exception raised while merging, in which case the
except branch returns the well-formed empty result dict. -/
def aggregate_results_node (exn : Option String) (query intent_type : String)
    (pr : List ProfileResult) (er : List EventResult) (ear : List EventAttrResult)
    (simTh ambTh : ℚ) : FinalResult :=
  match exn with
  | none => aggregate_results_core query intent_type pr er ear simTh ambTh
  | some msg =>
      { query := query
        intent_type := none
        profile_attributes := []
        events := []
        event_attributes := []
        summary := "处理失败"
        total_results := 0
        confidence_score := 0
        has_ambiguity := false
        ambiguous_options := []
        error := some ("Aggregation failed: " ++ msg) }

/- ----------------------------------------------------------------------
Graph wiring (`graph.py`) and the top-level entry point.
---------------------------------------------------------------------- -/

/-- `route_query` (router.py): both kinds present routes to the mixed
branch, events only to the event branch, anything else to the profile
branch. -/
def route_query (profile_attributes : List ProfileAttrQ) (events : List EventQ) : String :=
  if ¬ profile_attributes.isEmpty ∧ ¬ events.isEmpty then "search_mixed"
  else if ¬ events.isEmpty then "search_events"
  else "search_profiles"

/-- The resolver-stage part of the compiled graph of `create_agent_graph`:
all node wrappers receive the one shared `similarity_threshold`; the
ambiguity margins keep their node defaults (0.05).  State fields not
written by the taken path keep their initial empty value. -/
def create_agent_graph_results {E : Type} (C : Collaborators E) (simTh : ℚ)
    (pa : List ProfileAttrQ) (evs : List EventQ) :
    List ProfileResult × List EventResult × List EventAttrResult :=
  if route_query pa evs = "search_mixed" then
    (search_profiles_node C simTh (5/100) pa, search_events_node C simTh evs,
      search_event_attributes_node C simTh (5/100) (search_events_node C simTh evs))
  else if route_query pa evs = "search_events" then
    ([], search_events_node C simTh evs,
      search_event_attributes_node C simTh (5/100) (search_events_node C simTh evs))
  else
    (search_profiles_node C simTh (5/100) pa, [], [])

/-- The full wired pipeline after intent classification: run the routed
resolver stages and aggregate, with the same `similarity_threshold` passed
to the resolver nodes and to the aggregator. -/
def run_agent_graph {E : Type} (C : Collaborators E) (simTh ambTh : ℚ)
    (query intent_type : String) (pa : List ProfileAttrQ) (evs : List EventQ) :
    FinalResult :=
  let r := create_agent_graph_results C simTh pa evs
  aggregate_results_core query intent_type r.1 r.2.1 r.2.2 simTh ambTh

/-- `run_agent` (graph.py lines 130-202): `outcome` models `app.invoke` —
`.ok` carries the final state's optional `final_result` (given an
`execution_time` if present), `.error msg` models any exception raised
anywhere in the pipeline run, answered by the structurally complete error
result.  `elapsed` is the measured wall time. -/
def run_agent (query : String) (outcome : Except String (Option FinalResult))
    (elapsed : ℚ) : Option FinalResult :=
  match outcome with
  | .ok fr? =>
      match fr? with
      | some fr => some { fr with execution_time := some (round2 elapsed) }
      | none => none
  | .error msg =>
      some { query := query
             error := some ("执行失败: " ++ msg)
             profile_attributes := []
             events := []
             event_attributes := []
             summary := "执行失败"
             total_results := 0
             confidence_score := 0
             has_ambiguity := false
             ambiguous_options := []
             execution_time := some (round2 elapsed) }

/-- Stated from the claim C10's words, for comparison with the source
functions: the aggregation selection loop with the threshold test removed —
deduplication by catalog identifier only. -/
def pickGoNoThreshold {α : Type} [HasMatchedField α] :
    List α → List Nat → List α
  | [], _ => []
  | r :: rest, seen =>
      if (HasMatchedField.mf r).id ∈ seen then pickGoNoThreshold rest seen
      else r :: pickGoNoThreshold rest ((HasMatchedField.mf r).id :: seen)

/-- Stated from the claim C10's words: sorting plus deduplication only, no
threshold filter. -/
def dedupSortOnly {α β : Type} [HasMatchedField α] (mkE : α → β) (rs : List α) :
    List β :=
  (pickGoNoThreshold (sortResultsDesc rs) []).map mkE

/- ----------------------------------------------------------------------
Auxiliary predicates and concrete scenarios used by the verification.
---------------------------------------------------------------------- -/

/-- Whether a raw events-list entry is a dict. -/
def isEdictRaw (e : RawEvent) : Bool :=
  match e with
  | .edict _ _ _ => true
  | .other => false

/-- The boundary condition of the resolver ambiguity check: among the
above-threshold candidates sorted descending, a second candidate exists and
the rank1-rank2 gap is strictly below the margin. -/
def topTwoGapBelow (margin simTh : ℚ) (hits : List SearchHit) : Bool :=
  match sortHitsDesc (hits.filter fun r => decide (simTh ≤ r.score)) with
  | b :: s :: _ => decide (b.score - s.score < margin)
  | _ => false

/-- Correctness of one aggregation pass: the output is built from a
selection of the score-sorted inputs that keeps, for each catalog id with an
above-threshold result, exactly one entry — the one with the highest
observed score — and the output is sorted by score descending. -/
def DedupCorrect {α β : Type} [HasMatchedField α] (mkE : α → β) (sc : β → ℚ)
    (th : ℚ) (rs : List α) (out : List β) : Prop :=
  ∃ sel : List α, sel.Sublist (sortResultsDesc rs) ∧ out = sel.map mkE ∧
    (sel.map fun r => (HasMatchedField.mf r).id).Nodup ∧
    (∀ r ∈ sel, th ≤ (HasMatchedField.mf r).score ∧
      ∀ x ∈ rs, (HasMatchedField.mf x).id = (HasMatchedField.mf r).id →
        (HasMatchedField.mf x).score ≤ (HasMatchedField.mf r).score) ∧
    (∀ x ∈ rs, th ≤ (HasMatchedField.mf x).score →
      ∃ r ∈ sel, (HasMatchedField.mf r).id = (HasMatchedField.mf x).id) ∧
    out.Pairwise (fun a b => sc b ≤ sc a)

/-- Embeddings collapsed to `Unit` for concrete scenarios. -/
def encodeUnit : List String → List Unit := fun ts => ts.map (fun _ => ())

/-- A catalog with two events that share an attribute display name
(`金额`/`amount` exists under both `purchase` and `login`). -/
def catalogW : List CatalogField :=
  [⟨1, "EVENT", "", "购买事件", "purchase", "m-ev1"⟩,
   ⟨2, "EVENT", "", "登录事件", "login", "m-ev2"⟩,
   ⟨10, "EVENT_ATTRIBUTE", "purchase", "金额", "amount", "m-pa"⟩,
   ⟨20, "EVENT_ATTRIBUTE", "login", "金额", "amount", "m-la"⟩]

/-- A constant similarity oracle. -/
def simW : Unit → CatalogField → ℚ := fun _ _ => 9/10

/-- Collaborators whose event-attribute search is the modelled catalog
search over `catalogW`. -/
def collabW : Collaborators Unit :=
  ⟨encodeUnit, fun _ _ => [], fun _ _ => [],
    milvus_search_event_attributes catalogW simW⟩

/-- One resolved event (`purchase`) carrying the shared attribute query. -/
def eventResultsW : List EventResult :=
  [⟨⟨1, 4/5, "EVENT", "", "购买事件", "purchase", "m-ev1", none⟩, "购买", ["金额"]⟩]

/-- The event-attribute results of the two-events-shared-name scenario. -/
def earW : List EventAttrResult :=
  search_event_attributes_node collabW (13/20) (1/20) eventResultsW

/-- The single match the scenario emits: the `amount` attribute of
`purchase`, never the one of `login`. -/
def resW : EventAttrResult :=
  { matched_field :=
      ⟨10, 9/10, "EVENT_ATTRIBUTE", "purchase", "金额", "amount", "m-pa", some false⟩
    original_query := "金额"
    source := "purchase"
    event_name := "购买事件" }

/-- Two hits with scores 0.80 and 0.76 (gap 0.04). -/
def hitsGap04 : List SearchHit :=
  [⟨1, 4/5, some "EVENT", some "s1", some "sn1", some "idn1", some "m1"⟩,
   ⟨2, 19/25, some "EVENT", some "s2", some "sn2", some "idn2", some "m2"⟩]

/-- Two hits with scores 0.80 and 0.70 (gap 0.10). -/
def hitsGap10 : List SearchHit :=
  [⟨1, 4/5, none, none, none, none, none⟩,
   ⟨2, 7/10, none, none, none, none, none⟩]

/-- An event-search oracle returning the two close candidates. -/
def collabC4 : Collaborators Unit :=
  ⟨encodeUnit, fun _ _ => [], fun _ _ => hitsGap04, fun _ _ _ => []⟩

/-- The event match emitted by `collabC4` for the query `购买`. -/
def resC4 : EventResult :=
  { matched_field := ⟨1, 4/5, "EVENT", "s1", "sn1", "idn1", "m1", none⟩
    original_query := "购买"
    event_attributes := [] }

/-- A payload whose `person_attributes` list carries an empty and a
whitespace-only name. -/
def sqC2 : StructuredQuery := { person_attributes := some (.alist ["age", "", "  "]) }

/-- A payload with one event that has no usable description (neither
description key) but a non-empty attributes payload. -/
def sqC3 : StructuredQuery :=
  { behavioral_events := some (.elist [.edict none none (some (.alist ["购买金额"]))]) }

/-- An event-search oracle with one high-scoring hit for any query. -/
def collabC3 : Collaborators Unit :=
  ⟨encodeUnit, fun _ _ => [],
    fun _ _ => [⟨7, 9/10, some "EVENT", some "s", some "sn", some "idn", some "m"⟩],
    fun _ _ _ => []⟩

/-- Collaborators for the distinct-queries scenario: every partition search
returns one above-threshold hit. -/
def collabC9 : Collaborators Unit :=
  ⟨encodeUnit,
    fun _ _ => [⟨1, 4/5, some "PROFILE_ATTRIBUTE", none, some "年龄段", some "age_group", some "m"⟩],
    fun _ _ => [⟨2, 4/5, some "EVENT", some "s", some "购买事件", some "purchase", some "m"⟩],
    fun _ _ _ => [⟨3, 4/5, some "EVENT_ATTRIBUTE", some "purchase", some "金额", some "amount", some "m"⟩]⟩

/-- The profile match of `processProfileQuery` on `hitsGap04` (flagged). -/
def profResGap04 : ProfileResult :=
  { matched_field :=
      ⟨1, 4/5, "EVENT", "sn1", "sn1", "idn1", "m1", some true⟩
    original_query := "年龄"
    original_attribute := "年龄" }

/-- The profile match of `processProfileQuery` on `hitsGap10` (not flagged). -/
def profResGap10 : ProfileResult :=
  { matched_field :=
      ⟨1, 4/5, "PROFILE_ATTRIBUTE", "", "", "", "\x7b\x7d", some false⟩
    original_query := "年龄"
    original_attribute := "年龄" }

/-- The event-attribute match of `processEventAttrQuery` on `hitsGap04`. -/
def eaResGap04 : EventAttrResult :=
  { matched_field :=
      ⟨1, 4/5, "EVENT", "s1", "sn1", "idn1", "m1", some true⟩
    original_query := "金额"
    source := "ev"
    event_name := "EV" }

/-- The event-attribute match of `processEventAttrQuery` on `hitsGap10`. -/
def eaResGap10 : EventAttrResult :=
  { matched_field :=
      ⟨1, 4/5, "EVENT_ATTRIBUTE", "ev", "", "", "\x7b\x7d", some false⟩
    original_query := "金额"
    source := "ev"
    event_name := "EV" }

/- ----------------------------------------------------------------------
Basic lemmas about sorting and the per-query resolver bodies.
---------------------------------------------------------------------- -/

theorem mem_sortHitsDesc {a : SearchHit} {l : List SearchHit} :
    a ∈ sortHitsDesc l ↔ a ∈ l := by
  simp [sortHitsDesc]

theorem sortHitsDesc_pairwise (l : List SearchHit) :
    (sortHitsDesc l).Pairwise hitGe :=
  List.sorted_insertionSort hitGe l

theorem foldlMax_mem (t : List SearchHit) (h : SearchHit) :
    t.foldl (fun b r => if b.score < r.score then r else b) h ∈ h :: t := by
  induction t generalizing h with
  | nil => simp
  | cons r t ih =>
      simp only [List.foldl_cons]
      by_cases hc : h.score < r.score
      · rw [if_pos hc]
        exact List.mem_cons_of_mem _ (ih r)
      · rw [if_neg hc]
        rcases List.mem_cons.mp (ih h) with h1 | h2
        · rw [h1]; simp
        · simp [h2]

theorem processProfileQuery_some {simTh ambTh : ℚ} {attr : ProfileAttrQ}
    {hits : List SearchHit} {r : ProfileResult}
    (h : processProfileQuery simTh ambTh attr hits = some r) :
    r.original_query = attr.query_text ∧ r.original_attribute = attr.attribute_name ∧
    simTh ≤ r.matched_field.score ∧
    r.matched_field.has_ambiguity = some (topTwoGapBelow ambTh simTh hits) := by
  simp only [processProfileQuery] at h
  split at h
  · exact absurd h (by simp)
  · rename_i best rest heq
    injection h with h
    subst h
    have hb : best ∈ hits.filter fun x => decide (simTh ≤ x.score) := by
      have : best ∈ sortHitsDesc (hits.filter fun x => decide (simTh ≤ x.score)) := by
        rw [heq]; simp
      exact mem_sortHitsDesc.mp this
    have hsc : simTh ≤ best.score := by
      have := (List.mem_filter.mp hb).2
      exact of_decide_eq_true this
    refine ⟨rfl, rfl, hsc, ?_⟩
    unfold topTwoGapBelow
    rw [heq]
    cases rest <;> simp

theorem processEventQuery_some {simTh : ℚ} {ev : EventQ} {hits : List SearchHit}
    {r : EventResult} (h : processEventQuery simTh ev hits = some r) :
    r.original_query = ev.event_description ∧ r.event_attributes = ev.event_attributes ∧
    r.matched_field.has_ambiguity = none ∧ simTh ≤ r.matched_field.score := by
  simp only [processEventQuery] at h
  split at h
  · exact absurd h (by simp)
  · rename_i hh t heq
    injection h with h
    subst h
    have hb : (t.foldl (fun b r => if b.score < r.score then r else b) hh) ∈
        hits.filter fun x => decide (simTh ≤ x.score) := by
      rw [heq]
      exact foldlMax_mem t hh
    have hsc := of_decide_eq_true (List.mem_filter.mp hb).2
    exact ⟨rfl, rfl, rfl, hsc⟩

theorem processEventAttrQuery_some {simTh ambTh : ℚ} {es esn q : String}
    {hits : List SearchHit} {r : EventAttrResult}
    (h : processEventAttrQuery simTh ambTh es esn q hits = some r) :
    r.original_query = q ∧ r.source = es ∧ r.event_name = esn ∧ r.event_idname = none ∧
    simTh ≤ r.matched_field.score ∧
    r.matched_field.has_ambiguity = some (topTwoGapBelow ambTh simTh hits) ∧
    ∃ best ∈ hits, simTh ≤ best.score ∧ r.matched_field.id = best.id ∧
      r.matched_field.source = best.source.getD es ∧
      r.matched_field.idname = best.idname.getD "" := by
  simp only [processEventAttrQuery] at h
  split at h
  · exact absurd h (by simp)
  · rename_i best rest heq
    injection h with h
    subst h
    have hb : best ∈ hits.filter fun x => decide (simTh ≤ x.score) := by
      have : best ∈ sortHitsDesc (hits.filter fun x => decide (simTh ≤ x.score)) := by
        rw [heq]; simp
      exact mem_sortHitsDesc.mp this
    have hsc : simTh ≤ best.score := of_decide_eq_true (List.mem_filter.mp hb).2
    refine ⟨rfl, rfl, rfl, rfl, hsc, ?_, best, (List.mem_filter.mp hb).1, hsc, rfl, rfl, rfl⟩
    unfold topTwoGapBelow
    rw [heq]
    cases rest <;> simp

/- ----------------------------------------------------------------------
Membership in the node outputs.
---------------------------------------------------------------------- -/

theorem search_profiles_node_mem {E : Type} {C : Collaborators E} {simTh ambTh : ℚ}
    {pas : List ProfileAttrQ} {r : ProfileResult}
    (h : r ∈ search_profiles_node C simTh ambTh pas) :
    ∃ p ∈ pas.zip (C.encode (pas.map (·.query_text))),
      processProfileQuery simTh ambTh p.1 (C.search_profile_attributes p.2 5) = some r := by
  simp only [search_profiles_node] at h
  exact List.mem_filterMap.mp h

theorem search_events_node_mem {E : Type} {C : Collaborators E} {simTh : ℚ}
    {evs : List EventQ} {r : EventResult}
    (h : r ∈ search_events_node C simTh evs) :
    ∃ p ∈ evs.zip (C.encode (evs.map (·.event_description))),
      processEventQuery simTh p.1 (C.search_events p.2 5) = some r := by
  simp only [search_events_node] at h
  exact List.mem_filterMap.mp h

theorem search_event_attributes_node_mem {E : Type} {C : Collaborators E}
    {simTh ambTh : ℚ} {er : List EventResult} {r : EventAttrResult}
    (h : r ∈ search_event_attributes_node C simTh ambTh er) :
    ∃ ev ∈ er, ev.matched_field.idname ≠ "" ∧
      ∃ p ∈ ev.event_attributes.zip (C.encode ev.event_attributes),
        processEventAttrQuery simTh ambTh ev.matched_field.idname
          ev.matched_field.source_name p.1
          (C.search_event_attributes p.2 ev.matched_field.idname 5) = some r := by
  simp only [search_event_attributes_node] at h
  rcases List.mem_flatMap.mp h with ⟨ev, hev, hr⟩
  by_cases h1 : ev.matched_field.idname = ""
  · rw [if_pos h1] at hr; simp at hr
  · rw [if_neg h1] at hr
    by_cases h2 : ev.event_attributes.isEmpty
    · rw [if_pos h2] at hr; simp at hr
    · rw [if_neg h2] at hr
      exact ⟨ev, hev, h1, List.mem_filterMap.mp hr⟩

theorem search_profiles_node_scores {E : Type} (C : Collaborators E)
    (simTh ambTh : ℚ) (pas : List ProfileAttrQ) :
    ∀ r ∈ search_profiles_node C simTh ambTh pas, simTh ≤ r.matched_field.score := by
  intro r h
  rcases search_profiles_node_mem h with ⟨p, _, hp⟩
  exact (processProfileQuery_some hp).2.2.1

theorem search_events_node_scores {E : Type} (C : Collaborators E)
    (simTh : ℚ) (evs : List EventQ) :
    ∀ r ∈ search_events_node C simTh evs, simTh ≤ r.matched_field.score := by
  intro r h
  rcases search_events_node_mem h with ⟨p, _, hp⟩
  exact (processEventQuery_some hp).2.2.2

theorem search_event_attributes_node_scores {E : Type} (C : Collaborators E)
    (simTh ambTh : ℚ) (er : List EventResult) :
    ∀ r ∈ search_event_attributes_node C simTh ambTh er, simTh ≤ r.matched_field.score := by
  intro r h
  rcases search_event_attributes_node_mem h with ⟨ev, _, _, p, _, hp⟩
  exact (processEventAttrQuery_some hp).2.2.2.2.1

theorem search_event_attributes_node_no_event_idname {E : Type} (C : Collaborators E)
    (simTh ambTh : ℚ) (er : List EventResult) :
    ∀ r ∈ search_event_attributes_node C simTh ambTh er, r.event_idname = none := by
  intro r h
  rcases search_event_attributes_node_mem h with ⟨ev, _, _, p, _, hp⟩
  exact (processEventAttrQuery_some hp).2.2.2.1

/- ----------------------------------------------------------------------
Lemmas about the aggregation selection loop.
---------------------------------------------------------------------- -/

theorem sortResultsDesc_perm {α : Type} [HasMatchedField α] (l : List α) :
    List.Perm (sortResultsDesc l) l :=
  List.perm_insertionSort _ _

theorem sortResultsDesc_pairwise {α : Type} [HasMatchedField α] (l : List α) :
    (sortResultsDesc l).Pairwise (resGe (α := α)) :=
  List.sorted_insertionSort _ _

theorem round3_mono {a b : ℚ} (h : a ≤ b) : round3 a ≤ round3 b := by
  unfold round3
  have hr : round (a * 1000) ≤ round (b * 1000) := by
    rw [round_eq, round_eq]
    exact Int.floor_mono (by linarith)
  have hc : ((round (a * 1000) : ℤ) : ℚ) ≤ ((round (b * 1000) : ℤ) : ℚ) :=
    Int.cast_le.mpr hr
  linarith

theorem pickGo_sublist {α : Type} [HasMatchedField α] (th : ℚ) (l : List α) :
    ∀ seen, List.Sublist (pickGo th l seen) l := by
  induction l with
  | nil => intro seen; simp [pickGo]
  | cons r₀ rest ih =>
      intro seen
      simp only [pickGo]
      by_cases hc : (HasMatchedField.mf r₀).score < th ∨ (HasMatchedField.mf r₀).id ∈ seen
      · rw [if_pos hc]
        exact (ih seen).cons _
      · rw [if_neg hc]
        exact (ih _).cons₂ _

theorem pickGo_mem {α : Type} [HasMatchedField α] (th : ℚ) (l : List α) :
    ∀ seen r, r ∈ pickGo th l seen →
      th ≤ (HasMatchedField.mf r).score ∧ (HasMatchedField.mf r).id ∉ seen := by
  induction l with
  | nil => intro seen r h; simp [pickGo] at h
  | cons r₀ rest ih =>
      intro seen r h
      simp only [pickGo] at h
      by_cases hc : (HasMatchedField.mf r₀).score < th ∨ (HasMatchedField.mf r₀).id ∈ seen
      · rw [if_pos hc] at h
        exact ih seen r h
      · rw [if_neg hc] at h
        push_neg at hc
        rcases List.mem_cons.mp h with rfl | hmem
        · exact ⟨hc.1, hc.2⟩
        · have hr := ih _ r hmem
          exact ⟨hr.1, fun hseen => hr.2 (List.mem_cons_of_mem _ hseen)⟩

theorem pickGo_ids_nodup {α : Type} [HasMatchedField α] (th : ℚ) (l : List α) :
    ∀ seen, ((pickGo th l seen).map fun r => (HasMatchedField.mf r).id).Nodup := by
  induction l with
  | nil => intro seen; simp [pickGo]
  | cons r₀ rest ih =>
      intro seen
      simp only [pickGo]
      by_cases hc : (HasMatchedField.mf r₀).score < th ∨ (HasMatchedField.mf r₀).id ∈ seen
      · rw [if_pos hc]; exact ih seen
      · rw [if_neg hc]
        simp only [List.map_cons, List.nodup_cons]
        constructor
        · intro hmem
          rcases List.mem_map.mp hmem with ⟨x, hx, hid⟩
          refine (pickGo_mem th rest _ x hx).2 ?_
          rw [hid]
          exact List.mem_cons_self _ _
        · exact ih _

theorem pickGo_max {α : Type} [HasMatchedField α] (th : ℚ) (l : List α)
    (hs : l.Pairwise (resGe (α := α))) :
    ∀ seen r, r ∈ pickGo th l seen → ∀ x ∈ l,
      (HasMatchedField.mf x).id = (HasMatchedField.mf r).id →
      (HasMatchedField.mf x).score ≤ (HasMatchedField.mf r).score := by
  induction l with
  | nil => intro seen r h; simp [pickGo] at h
  | cons r₀ rest ih =>
      have hp := List.pairwise_cons.mp hs
      intro seen r hr x hx hid
      simp only [pickGo] at hr
      by_cases hc : (HasMatchedField.mf r₀).score < th ∨ (HasMatchedField.mf r₀).id ∈ seen
      · rw [if_pos hc] at hr
        rcases List.mem_cons.mp hx with rfl | hxr
        · rcases hc with hlt | hseen
          · have hr' := pickGo_mem th rest seen r hr
            have hrrest : r ∈ rest := (pickGo_sublist th rest seen).subset hr
            have hle : (HasMatchedField.mf r).score ≤ (HasMatchedField.mf x).score :=
              hp.1 r hrrest
            linarith [hr'.1]
          · have hr' := pickGo_mem th rest seen r hr
            rw [hid] at hseen
            exact absurd hseen hr'.2
        · exact ih hp.2 seen r hr x hxr hid
      · rw [if_neg hc] at hr
        rcases List.mem_cons.mp hr with rfl | hrtail
        · rcases List.mem_cons.mp hx with rfl | hxr
          · exact le_refl _
          · exact hp.1 x hxr
        · rcases List.mem_cons.mp hx with rfl | hxr
          · have hr' := pickGo_mem th rest _ r hrtail
            exfalso
            refine hr'.2 ?_
            rw [← hid]
            exact List.mem_cons_self _ _
          · exact ih hp.2 _ r hrtail x hxr hid

theorem pickGo_complete {α : Type} [HasMatchedField α] (th : ℚ) (l : List α) :
    ∀ seen x, x ∈ l → th ≤ (HasMatchedField.mf x).score →
      (∃ r ∈ pickGo th l seen, (HasMatchedField.mf r).id = (HasMatchedField.mf x).id) ∨
      (HasMatchedField.mf x).id ∈ seen := by
  induction l with
  | nil => intro seen x hx; simp at hx
  | cons r₀ rest ih =>
      intro seen x hx hth
      simp only [pickGo]
      by_cases hc : (HasMatchedField.mf r₀).score < th ∨ (HasMatchedField.mf r₀).id ∈ seen
      · rw [if_pos hc]
        rcases List.mem_cons.mp hx with rfl | hxr
        · rcases hc with hlt | hseen
          · exact absurd hth (not_le.mpr hlt)
          · exact Or.inr hseen
        · exact ih seen x hxr hth
      · rw [if_neg hc]
        rcases List.mem_cons.mp hx with rfl | hxr
        · exact Or.inl ⟨x, List.mem_cons_self _ _, rfl⟩
        · rcases ih ((HasMatchedField.mf r₀).id :: seen) x hxr hth with ⟨r, hr, hidr⟩ | hseen
          · exact Or.inl ⟨r, List.mem_cons_of_mem _ hr, hidr⟩
          · rcases List.mem_cons.mp hseen with heq | hseen'
            · exact Or.inl ⟨r₀, List.mem_cons_self _ _, heq.symm⟩
            · exact Or.inr hseen'

theorem pickGo_eq_noThreshold {α : Type} [HasMatchedField α] (th : ℚ) :
    ∀ l : List α, (∀ r ∈ l, th ≤ (HasMatchedField.mf r).score) →
      ∀ seen, pickGo th l seen = pickGoNoThreshold l seen := by
  intro l
  induction l with
  | nil => intro _ seen; simp [pickGo, pickGoNoThreshold]
  | cons r₀ rest ih =>
      intro hall seen
      have h₀ : ¬ (HasMatchedField.mf r₀).score < th := not_lt.mpr (hall r₀ (by simp))
      have hrest : ∀ r ∈ rest, th ≤ (HasMatchedField.mf r).score :=
        fun r hr => hall r (List.mem_cons_of_mem _ hr)
      simp only [pickGo, pickGoNoThreshold]
      by_cases hm : (HasMatchedField.mf r₀).id ∈ seen
      · rw [if_pos (Or.inr hm), if_pos hm]
        exact ih hrest seen
      · rw [if_neg (fun h => h.elim h₀ hm), if_neg hm]
        rw [ih hrest _]

theorem dedupProcess_correct {α β : Type} [HasMatchedField α] (mkE : α → β)
    (sc : β → ℚ) (hsc : ∀ r, sc (mkE r) = round3 (HasMatchedField.mf r).score)
    (th : ℚ) (rs : List α) :
    DedupCorrect mkE sc th rs (dedupProcess mkE th rs) := by
  refine ⟨pickGo th (sortResultsDesc rs) [], pickGo_sublist th _ [], rfl,
    pickGo_ids_nodup th _ [], ?_, ?_, ?_⟩
  · intro r hr
    refine ⟨(pickGo_mem th _ [] r hr).1, ?_⟩
    intro x hx hid
    exact pickGo_max th _ (sortResultsDesc_pairwise rs) [] r hr x
      ((sortResultsDesc_perm rs).mem_iff.mpr hx) hid
  · intro x hx hth
    rcases pickGo_complete th _ [] x ((sortResultsDesc_perm rs).mem_iff.mpr hx) hth with h | h
    · exact h
    · simp at h
  · have hsel : (pickGo th (sortResultsDesc rs) []).Pairwise (resGe (α := α)) :=
      List.Pairwise.sublist (pickGo_sublist th _ []) (sortResultsDesc_pairwise rs)
    unfold dedupProcess
    rw [List.pairwise_map]
    refine hsel.imp ?_
    intro a b hab
    rw [hsc, hsc]
    exact round3_mono hab

theorem dedupProcess_eq_dedupSortOnly {α β : Type} [HasMatchedField α]
    (mkE : α → β) (th : ℚ) (rs : List α)
    (hall : ∀ r ∈ rs, th ≤ (HasMatchedField.mf r).score) :
    dedupProcess mkE th rs = dedupSortOnly mkE rs := by
  unfold dedupProcess dedupSortOnly
  rw [pickGo_eq_noThreshold th (sortResultsDesc rs)
    (fun r hr => hall r ((sortResultsDesc_perm rs).mem_iff.mp hr)) []]

/- ----------------------------------------------------------------------
Lemmas about the ambiguity grouping.
---------------------------------------------------------------------- -/

theorem addToGroups_fresh (q : String) (c : AmbCand) :
    ∀ gs : List (String × List AmbCand), (∀ g ∈ gs, g.1 ≠ q) →
      addToGroups q c gs = gs ++ [(q, [c])] := by
  intro gs
  induction gs with
  | nil => intro _; rfl
  | cons g rest ih =>
      intro hfresh
      simp only [addToGroups]
      rw [if_neg (hfresh g (by simp))]
      rw [ih (fun g' hg' => hfresh g' (List.mem_cons_of_mem _ hg'))]
      simp

theorem addToGroups_cand (P : AmbCand → Prop) (q : String) (c : AmbCand) :
    ∀ gs, (∀ g ∈ gs, ∀ x ∈ g.2, P x) → P c →
      ∀ g ∈ addToGroups q c gs, ∀ x ∈ g.2, P x := by
  intro gs
  induction gs with
  | nil =>
      intro _ hc g hg x hx
      simp only [addToGroups, List.mem_singleton] at hg
      subst hg
      simp only [List.mem_singleton] at hx
      subst hx
      exact hc
  | cons g₀ rest ih =>
      intro hall hc g hg x hx
      simp only [addToGroups] at hg
      by_cases he : g₀.1 = q
      · rw [if_pos he] at hg
        rcases List.mem_cons.mp hg with rfl | hgrest
        · rcases List.mem_append.mp hx with hx1 | hx2
          · exact hall g₀ (by simp) x hx1
          · simp only [List.mem_singleton] at hx2
            subst hx2
            exact hc
        · exact hall g (List.mem_cons_of_mem _ hgrest) x hx
      · rw [if_neg he] at hg
        rcases List.mem_cons.mp hg with rfl | hgrest
        · exact hall g (by simp) x hx
        · exact ih (fun g' hg' => hall g' (List.mem_cons_of_mem _ hg')) hc g hgrest x hx

theorem buildGroupsGo_cand {α : Type} (th : ℚ) (getQ : α → String)
    (getScore : α → ℚ) (mkCand : α → AmbCand) (P : AmbCand → Prop) :
    ∀ (rs : List α) gs, (∀ g ∈ gs, ∀ x ∈ g.2, P x) → (∀ r ∈ rs, P (mkCand r)) →
      ∀ g ∈ buildGroupsGo th getQ getScore mkCand rs gs, ∀ x ∈ g.2, P x := by
  intro rs
  induction rs with
  | nil => intro gs hgs _ g hg; exact hgs g hg
  | cons r rest ih =>
      intro gs hgs hrs g hg
      simp only [buildGroupsGo] at hg
      by_cases hth : th ≤ getScore r
      · rw [if_pos hth] at hg
        exact ih _ (addToGroups_cand P _ _ gs hgs (hrs r (by simp)))
          (fun r' hr' => hrs r' (by simp [hr'])) g hg
      · rw [if_neg hth] at hg
        exact ih gs hgs (fun r' hr' => hrs r' (by simp [hr'])) g hg

theorem buildGroupsGo_singleton {α : Type} (th : ℚ) (getQ : α → String)
    (getScore : α → ℚ) (mkCand : α → AmbCand) :
    ∀ (rs : List α) gs, ((gs.map Prod.fst) ++ rs.map getQ).Nodup →
      (∀ g ∈ gs, g.2.length ≤ 1) →
      ∀ g ∈ buildGroupsGo th getQ getScore mkCand rs gs, g.2.length ≤ 1 := by
  intro rs
  induction rs with
  | nil => intro gs _ hlen g hg; exact hlen g hg
  | cons r rest ih =>
      intro gs hnd hlen g hg
      simp only [buildGroupsGo] at hg
      by_cases hth : th ≤ getScore r
      · rw [if_pos hth] at hg
        have hfresh : ∀ g' ∈ gs, g'.1 ≠ getQ r := by
          intro g' hg' heq
          have h1 : g'.1 ∈ gs.map Prod.fst := List.mem_map_of_mem _ hg'
          have hdisj := (List.nodup_append.mp hnd).2.2
          refine hdisj h1 ?_
          rw [heq]
          simp
        rw [addToGroups_fresh _ _ gs hfresh] at hg
        refine ih _ ?_ ?_ g hg
        · simp only [List.map_append, List.map_cons, List.map_nil]
          have hshape : gs.map Prod.fst ++ [(getQ r, [mkCand r])].map Prod.fst ++ rest.map getQ
              = gs.map Prod.fst ++ getQ r :: rest.map getQ := by
            simp
          simp only [List.map_cons, List.map_nil] at hshape ⊢
          rw [hshape]
          simpa using hnd
        · intro g' hg'
          rcases List.mem_append.mp hg' with h1 | h2
          · exact hlen g' h1
          · simp only [List.mem_singleton] at h2
            subst h2
            simp
      · rw [if_neg hth] at hg
        refine ih gs ?_ hlen g hg
        refine List.Nodup.sublist ?_ hnd
        refine List.Sublist.append_left ?_ _
        simp only [List.map_cons]
        exact List.sublist_cons_self _ _

theorem ambiguousOf_eq_nil (cat : String) (gs : List (String × List AmbCand))
    (h : ∀ g ∈ gs, g.2.length ≤ 1) : ambiguousOf cat gs = [] := by
  simp only [ambiguousOf]
  refine List.filterMap_eq_nil_iff.mpr ?_
  intro g hg
  rw [if_neg (not_lt.mpr (h g hg))]

theorem ambiguousOf_mem {cat : String} {gs : List (String × List AmbCand)}
    {o : AmbOption} (h : o ∈ ambiguousOf cat gs) :
    o.category = cat ∧ ∃ g ∈ gs, o.candidates = g.2 := by
  rcases List.mem_filterMap.mp h with ⟨g, hg, hif⟩
  by_cases hl : 1 < g.2.length
  · rw [if_pos hl] at hif
    injection hif with hif
    subst hif
    exact ⟨rfl, g, hg, rfl⟩
  · rw [if_neg hl] at hif
    exact absurd hif (by simp)

/- ----------------------------------------------------------------------
Sublist transport from inputs to node outputs.
---------------------------------------------------------------------- -/

theorem filterMap_zip_map_sublist {A B G D : Type} (f : A → B → Option G)
    (g : G → D) (h : A → D) (hf : ∀ a b c, f a b = some c → g c = h a) :
    ∀ (l : List A) (es : List B),
      List.Sublist (((l.zip es).filterMap fun p => f p.1 p.2).map g) (l.map h) := by
  intro l
  induction l with
  | nil => intro es; simp
  | cons a l ih =>
      intro es
      cases es with
      | nil => simp
      | cons b es =>
          simp only [List.zip_cons_cons]
          cases hfa : f a b with
          | none =>
              simp only [List.filterMap_cons, hfa, List.map_cons]
              exact (ih es).cons _
          | some c =>
              simp only [List.filterMap_cons, hfa, List.map_cons]
              rw [hf a b c hfa]
              exact (ih es).cons₂ _

theorem flatMap_sublist_pointwise {A B : Type} (l : List A) (f g : A → List B)
    (h : ∀ x ∈ l, List.Sublist (f x) (g x)) :
    List.Sublist (l.flatMap f) (l.flatMap g) := by
  induction l with
  | nil => simp
  | cons a l ih =>
      simp only [List.flatMap_cons]
      exact (h a (by simp)).append (ih (fun x hx => h x (by simp [hx])))

theorem flatten_sublist_mono {A : Type} :
    ∀ {l₁ l₂ : List (List A)}, List.Sublist l₁ l₂ →
      List.Sublist l₁.flatten l₂.flatten := by
  intro l₁ l₂ h
  induction h with
  | slnil => simp
  | cons a _ ih =>
      simp only [List.flatten_cons]
      exact ih.trans (List.sublist_append_right _ _)
  | cons₂ a _ ih =>
      simp only [List.flatten_cons]
      exact ih.append_left _

/- ----------------------------------------------------------------------
Node-level corollaries.
---------------------------------------------------------------------- -/

theorem search_profiles_node_queries_sublist {E : Type} (C : Collaborators E)
    (simTh ambTh : ℚ) (pas : List ProfileAttrQ) :
    List.Sublist ((search_profiles_node C simTh ambTh pas).map (·.original_query))
      (pas.map (·.query_text)) := by
  simp only [search_profiles_node]
  exact filterMap_zip_map_sublist
    (fun a b => processProfileQuery simTh ambTh a (C.search_profile_attributes b 5))
    (fun r => r.original_query) (fun p => p.query_text)
    (fun a b c hc => (processProfileQuery_some hc).1)
    pas (C.encode (pas.map (·.query_text)))

theorem search_events_node_queries_sublist {E : Type} (C : Collaborators E)
    (simTh : ℚ) (evs : List EventQ) :
    List.Sublist ((search_events_node C simTh evs).map (·.original_query))
      (evs.map (·.event_description)) := by
  simp only [search_events_node]
  exact filterMap_zip_map_sublist
    (fun a b => processEventQuery simTh a (C.search_events b 5))
    (fun r => r.original_query) (fun p => p.event_description)
    (fun a b c hc => (processEventQuery_some hc).1)
    evs (C.encode (evs.map (·.event_description)))

theorem search_events_node_attrs_sublist {E : Type} (C : Collaborators E)
    (simTh : ℚ) (evs : List EventQ) :
    List.Sublist ((search_events_node C simTh evs).map (·.event_attributes))
      (evs.map (·.event_attributes)) := by
  simp only [search_events_node]
  exact filterMap_zip_map_sublist
    (fun a b => processEventQuery simTh a (C.search_events b 5))
    (fun r => r.event_attributes) (fun p => p.event_attributes)
    (fun a b c hc => (processEventQuery_some hc).2.1)
    evs (C.encode (evs.map (·.event_description)))

theorem search_event_attributes_node_queries_sublist {E : Type} (C : Collaborators E)
    (simTh ambTh : ℚ) (er : List EventResult) :
    List.Sublist ((search_event_attributes_node C simTh ambTh er).map (·.original_query))
      (er.flatMap (·.event_attributes)) := by
  simp only [search_event_attributes_node]
  rw [List.map_flatMap]
  refine flatMap_sublist_pointwise er _ _ ?_
  intro ev _
  by_cases h1 : ev.matched_field.idname = ""
  · rw [if_pos h1]; simp
  · rw [if_neg h1]
    by_cases h2 : ev.event_attributes.isEmpty
    · rw [if_pos h2]; simp
    · rw [if_neg h2]
      have hs := filterMap_zip_map_sublist
        (fun a b => processEventAttrQuery simTh ambTh ev.matched_field.idname
          ev.matched_field.source_name a
          (C.search_event_attributes b ev.matched_field.idname 5))
        (fun r => r.original_query) (fun q => q)
        (fun a b c hc => (processEventAttrQuery_some hc).1)
        ev.event_attributes (C.encode ev.event_attributes)
      simpa using hs

theorem dedupProcess_mem {α β : Type} [HasMatchedField α] (mkE : α → β)
    (th : ℚ) (rs : List α) :
    ∀ e ∈ dedupProcess mkE th rs, ∃ r ∈ rs, e = mkE r := by
  intro e he
  rcases List.mem_map.mp he with ⟨r, hr, heq⟩
  exact ⟨r, (sortResultsDesc_perm rs).mem_iff.mp ((pickGo_sublist th _ []).subset hr),
    heq.symm⟩

theorem detect_ambiguities_eq_nil {pr : List ProfileResult} {er : List EventResult}
    {ear : List EventAttrResult} (th : ℚ)
    (h1 : (pr.map (·.original_query)).Nodup)
    (h2 : (er.map (·.original_query)).Nodup)
    (h3 : (ear.map (·.original_query)).Nodup) :
    detect_ambiguities pr er ear th = ([], false) := by
  have g1 : ∀ g ∈ buildGroups th ProfileResult.original_query
      (fun r => r.matched_field.score) profileCand pr, g.2.length ≤ 1 :=
    buildGroupsGo_singleton th ProfileResult.original_query
      (fun r => r.matched_field.score) profileCand pr [] (by simpa using h1) (by simp)
  have g2 : ∀ g ∈ buildGroups th EventResult.original_query
      (fun r => r.matched_field.score) eventCand er, g.2.length ≤ 1 :=
    buildGroupsGo_singleton th EventResult.original_query
      (fun r => r.matched_field.score) eventCand er [] (by simpa using h2) (by simp)
  have g3 : ∀ g ∈ buildGroups th EventAttrResult.original_query
      (fun r => r.matched_field.score) eventAttrCand ear, g.2.length ≤ 1 :=
    buildGroupsGo_singleton th EventAttrResult.original_query
      (fun r => r.matched_field.score) eventAttrCand ear [] (by simpa using h3) (by simp)
  simp only [detect_ambiguities]
  rw [ambiguousOf_eq_nil _ _ g1, ambiguousOf_eq_nil _ _ g2, ambiguousOf_eq_nil _ _ g3]
  simp

theorem milvus_search_mem {E : Type} {catalog : List CatalogField}
    {sim : E → CatalogField → ℚ} {emb : E} {src : String} {lim : Nat} {h : SearchHit}
    (hm : h ∈ milvus_search_event_attributes catalog sim emb src lim) :
    ∃ cf ∈ catalog, cf.source_type = "EVENT_ATTRIBUTE" ∧ cf.source = src ∧
      h.id = cf.id ∧ h.source = some cf.source ∧ h.idname = some cf.idname := by
  simp only [milvus_search_event_attributes] at hm
  have hm' := List.mem_of_mem_take hm
  rw [mem_sortHitsDesc] at hm'
  rcases List.mem_map.mp hm' with ⟨cf, hcf, heq⟩
  have hf := List.mem_filter.mp hcf
  have hb := hf.2
  simp only [Bool.and_eq_true, beq_iff_eq] at hb
  subst heq
  exact ⟨cf, hf.1, hb.1, hb.2, rfl, rfl, rfl⟩

theorem create_agent_graph_results_fst_scores {E : Type} (C : Collaborators E)
    (simTh : ℚ) (pa : List ProfileAttrQ) (evs : List EventQ) :
    ∀ x ∈ (create_agent_graph_results C simTh pa evs).1,
      simTh ≤ x.matched_field.score := by
  unfold create_agent_graph_results
  split_ifs
  · exact search_profiles_node_scores C simTh (5/100) pa
  · intro x hx; simp at hx
  · exact search_profiles_node_scores C simTh (5/100) pa

theorem create_agent_graph_results_snd_scores {E : Type} (C : Collaborators E)
    (simTh : ℚ) (pa : List ProfileAttrQ) (evs : List EventQ) :
    ∀ x ∈ (create_agent_graph_results C simTh pa evs).2.1,
      simTh ≤ x.matched_field.score := by
  unfold create_agent_graph_results
  split_ifs
  · exact search_events_node_scores C simTh evs
  · exact search_events_node_scores C simTh evs
  · intro x hx; simp at hx

theorem create_agent_graph_results_thd_scores {E : Type} (C : Collaborators E)
    (simTh : ℚ) (pa : List ProfileAttrQ) (evs : List EventQ) :
    ∀ x ∈ (create_agent_graph_results C simTh pa evs).2.2,
      simTh ≤ x.matched_field.score := by
  unfold create_agent_graph_results
  split_ifs
  · exact search_event_attributes_node_scores C simTh (5/100) _
  · exact search_event_attributes_node_scores C simTh (5/100) _
  · intro x hx; simp at hx

/- ----------------------------------------------------------------------
Claim theorems.
---------------------------------------------------------------------- -/

/-- C2 counterexample: the intent node's normalization performs no trimming
and no exclusion — normalizing a payload whose `person_attributes` list is
`["age", "", "  "]` yields three canonical queries (including the empty and
whitespace-only ones), not exactly one. -/
theorem intent_no_trim_counterexample :
    intentProfileAttributes sqC2 =
      [⟨"age", "age"⟩, ⟨"", ""⟩, ⟨"  ", "  "⟩] ∧
    (intentProfileAttributes sqC2).length ≠ 1 := by
  constructor
  · rfl
  · decide

/-- C2 (amended): the intent node's normalization of a list-shaped
`person_attributes` payload passes every entry through verbatim — no
trimming, no exclusion of empty or whitespace-only names: every name
becomes a canonical query whose text equals the name. -/
theorem intent_list_attrs_verbatim (names : List String)
    (b e : Option EventsPayload) :
    intentProfileAttributes ⟨some (.alist names), b, e⟩ = names.map (fun n => ⟨n, n⟩) ∧
    (intentProfileAttributes ⟨some (.alist names), b, e⟩).length = names.length := by
  refine ⟨rfl, ?_⟩
  simp [intentProfileAttributes]

/-- C3 counterexample: an event entry with no usable description is kept
(with an empty description), contributes a canonical event query, and the
Event Resolver emits a match for it when the store returns an
above-threshold candidate. -/
theorem descriptionless_event_kept_counterexample :
    intentEvents sqC3 = [⟨"", ["购买金额"]⟩] ∧
    (search_events_node collabC3 (13/20) (intentEvents sqC3)).length = 1 := by
  constructor
  · decide
  · decide

/-- C3 (amended): the intent node's event parsing drops only non-dict
entries — a dict entry with no usable description is kept with the empty
string as description, its attributes payload intact, and is searched like
any other event query. -/
theorem descriptionless_event_kept (entries : List RawEvent)
    (pa : Option AttrsPayload) (ev2 : Option EventsPayload) :
    (intentEvents ⟨pa, some (.elist entries), ev2⟩).length
      = entries.countP isEdictRaw ∧
    ∀ attrs : Option AttrsPayload,
      intentEvents ⟨none, some (.elist [.edict none none attrs]), none⟩
        = [⟨"", eventAttrTexts (attrs.getD (.adict []))⟩] := by
  constructor
  · simp only [intentEvents]
    induction entries with
    | nil => simp
    | cons e rest ih =>
        cases e with
        | edict et ed a =>
            simp only [List.filterMap_cons, List.countP_cons, isEdictRaw]
            simp [ih]
        | other =>
            simp only [List.filterMap_cons, List.countP_cons, isEdictRaw]
            simp [ih]
  · intro attrs
    rfl

/-- C4 counterexample: with two above-threshold event candidates scoring
0.80 and 0.76 (gap 0.04, strictly below the default margin 0.05), the Event
Resolver emits a single match whose `matched_field` carries no
`has_ambiguity` key at all (modelled `none`), and the runner-up is not
retained. -/
theorem event_resolver_no_flag_counterexample :
    (13/20 : ℚ) ≤ 19/25 ∧ (4/5 - 19/25 : ℚ) < 5/100 ∧
    (search_events_node collabC4 (13/20) [⟨"购买", []⟩]).length = 1 ∧
    (search_events_node collabC4 (13/20) [⟨"购买", []⟩]).map
      (fun r => r.matched_field.has_ambiguity) = [none] := by
  refine ⟨by decide, by decide, by decide, by decide⟩

/-- C4 (amended): the Event Resolver shares the per-query selection
algorithm (threshold filter, best pick) but omits the ambiguity step
entirely: every event match it emits carries no ambiguity flag; the flag is
set only by the Profile and Event-Attribute Resolvers. -/
theorem event_matches_never_flagged {E : Type} (C : Collaborators E)
    (simTh : ℚ) (evs : List EventQ) (r : EventResult)
    (h : r ∈ search_events_node C simTh evs) :
    r.matched_field.has_ambiguity = none := by
  rcases search_events_node_mem h with ⟨p, _, hp⟩
  exact (processEventQuery_some hp).2.2.1

/-- Witness for C4's amended theorem at the concrete two-candidate input. -/
theorem event_matches_never_flagged_witness :
    resC4.matched_field.has_ambiguity = none :=
  event_matches_never_flagged collabC4 (13/20) [⟨"购买", []⟩] resC4 (by decide)

/-- C5: each of the three aggregation passes sorts by score descending,
drops entries below the threshold, and keeps each catalog identifier at
most once, at its highest observed score (`DedupCorrect`). -/
theorem aggregator_dedup_correct (th : ℚ) (prs : List ProfileResult)
    (ers : List EventResult) (ears : List EventAttrResult) :
    DedupCorrect mkProfileEntry ProfileEntry.score th prs
      (process_profile_results th prs) ∧
    DedupCorrect mkEventEntry EventMatchEntry.score th ers
      (process_event_results th ers) ∧
    DedupCorrect mkEventAttrEntry EventAttrEntry.score th ears
      (process_event_attr_results th ears) :=
  ⟨dedupProcess_correct mkProfileEntry ProfileEntry.score (fun _ => rfl) th prs,
   dedupProcess_correct mkEventEntry EventMatchEntry.score (fun _ => rfl) th ers,
   dedupProcess_correct mkEventAttrEntry EventAttrEntry.score (fun _ => rfl) th ears⟩

/-- C6: with the default margin 0.05, the profile and event-attribute
resolvers flag an accepted match as ambiguous exactly when a second
above-threshold candidate exists and the rank1-rank2 score gap is strictly
below the margin. -/
theorem ambiguity_flag_iff (simTh : ℚ) (attr : ProfileAttrQ) (es esn q : String)
    (hits : List SearchHit) (r : ProfileResult) (r₂ : EventAttrResult)
    (h₁ : processProfileQuery simTh (1/20) attr hits = some r)
    (h₂ : processEventAttrQuery simTh (1/20) es esn q hits = some r₂) :
    (r.matched_field.has_ambiguity = some true ↔
      topTwoGapBelow (1/20) simTh hits = true) ∧
    (r₂.matched_field.has_ambiguity = some true ↔
      topTwoGapBelow (1/20) simTh hits = true) := by
  have e₁ := (processProfileQuery_some h₁).2.2.2
  have e₂ := (processEventAttrQuery_some h₂).2.2.2.2.2.1
  rw [e₁, e₂]
  simp

/-- Witness for C6 at the claim's concrete boundary inputs: scores 0.80 and
0.76 (gap 0.04) are flagged, scores 0.80 and 0.70 (gap 0.10) are not. -/
theorem ambiguity_flag_iff_witness :
    (profResGap04.matched_field.has_ambiguity = some true ↔
      topTwoGapBelow (1/20) (13/20) hitsGap04 = true) ∧
    (profResGap10.matched_field.has_ambiguity = some true ↔
      topTwoGapBelow (1/20) (13/20) hitsGap10 = true) ∧
    topTwoGapBelow (1/20) (13/20) hitsGap04 = true ∧
    topTwoGapBelow (1/20) (13/20) hitsGap10 = false ∧
    profResGap04.matched_field.has_ambiguity = some true ∧
    profResGap10.matched_field.has_ambiguity = some false :=
  ⟨(ambiguity_flag_iff (13/20) ⟨"年龄", "年龄"⟩ "ev" "EV" "金额" hitsGap04
      profResGap04 eaResGap04 (by decide) (by decide)).1,
   (ambiguity_flag_iff (13/20) ⟨"年龄", "年龄"⟩ "ev" "EV" "金额" hitsGap10
      profResGap10 eaResGap10 (by decide) (by decide)).1,
   by decide, by decide, by decide, by decide⟩

/-- C7: when an unexpected exception occurs during aggregation, and when
any exception occurs anywhere in the pipeline run, the caller still
receives a structurally complete result with all three lists empty, overall
confidence 0.0 and a diagnostic error string; the modelled entry points are
total, so nothing propagates past them. -/
theorem error_paths_well_formed (query intent_type msg : String)
    (pr : List ProfileResult) (er : List EventResult) (ear : List EventAttrResult)
    (simTh ambTh : ℚ) (q₂ msg₂ : String) (t : ℚ) :
    ((aggregate_results_node (some msg) query intent_type pr er ear simTh ambTh).profile_attributes = [] ∧
     (aggregate_results_node (some msg) query intent_type pr er ear simTh ambTh).events = [] ∧
     (aggregate_results_node (some msg) query intent_type pr er ear simTh ambTh).event_attributes = [] ∧
     (aggregate_results_node (some msg) query intent_type pr er ear simTh ambTh).confidence_score = 0 ∧
     (aggregate_results_node (some msg) query intent_type pr er ear simTh ambTh).has_ambiguity = false ∧
     (aggregate_results_node (some msg) query intent_type pr er ear simTh ambTh).ambiguous_options = [] ∧
     (aggregate_results_node (some msg) query intent_type pr er ear simTh ambTh).error
       = some ("Aggregation failed: " ++ msg)) ∧
    (∃ fr, run_agent q₂ (.error msg₂) t = some fr ∧
      fr.profile_attributes = [] ∧ fr.events = [] ∧ fr.event_attributes = [] ∧
      fr.confidence_score = 0 ∧ fr.error = some ("执行失败: " ++ msg₂) ∧
      fr.execution_time = some (round2 t)) :=
  ⟨⟨rfl, rfl, rfl, rfl, rfl, rfl, rfl⟩,
   ⟨_, rfl, rfl, rfl, rfl, rfl, rfl, rfl⟩⟩

/-- The ambiguous-options list of `_detect_ambiguities` is the three
per-category lists appended in order. -/
theorem detect_ambiguities_fst (pr : List ProfileResult) (er : List EventResult)
    (ear : List EventAttrResult) (th : ℚ) :
    (detect_ambiguities pr er ear th).1 =
      ambiguousOf "profile"
          (buildGroups th ProfileResult.original_query (fun r => r.matched_field.score) profileCand pr)
        ++ ambiguousOf "event"
          (buildGroups th EventResult.original_query (fun r => r.matched_field.score) eventCand er)
        ++ ambiguousOf "event_attribute"
          (buildGroups th EventAttrResult.original_query (fun r => r.matched_field.score) eventAttrCand ear) :=
  rfl

/-- C1: with the spec-modelled scoped search, every match the
Event-Attribute Resolver emits is attributed to the very event it was
searched under — its `source` and `event_name` name that parent event, its
`matched_field.source` agrees, and the matched catalog entry is an event
attribute whose `parentEventId` is that same event, never another one. -/
theorem event_attr_scoping {E : Type} (catalog : List CatalogField)
    (sim : E → CatalogField → ℚ) (enc : List String → List E)
    (sp se : E → Nat → List SearchHit) (simTh ambTh : ℚ)
    (event_results : List EventResult) (res : EventAttrResult)
    (hres : res ∈ search_event_attributes_node
      ⟨enc, sp, se, milvus_search_event_attributes catalog sim⟩ simTh ambTh event_results) :
    res.matched_field.source = res.source ∧
    (∃ ev ∈ event_results, res.source = ev.matched_field.idname ∧
      res.event_name = ev.matched_field.source_name) ∧
    ∃ cf ∈ catalog, cf.source_type = "EVENT_ATTRIBUTE" ∧ cf.source = res.source ∧
      cf.id = res.matched_field.id ∧ cf.idname = res.matched_field.idname := by
  rcases search_event_attributes_node_mem hres with ⟨ev, hev, hne, p, hp, hq⟩
  have hspec := processEventAttrQuery_some hq
  have hsrcres : res.source = ev.matched_field.idname := hspec.2.1
  have hevname : res.event_name = ev.matched_field.source_name := hspec.2.2.1
  rcases hspec.2.2.2.2.2.2 with ⟨best, hbest, _, hid, hsrc, hidn⟩
  rcases milvus_search_mem hbest with ⟨cf, hcf, hct, hcs, hbid, hbsrc, hbidn⟩
  refine ⟨?_, ⟨ev, hev, hsrcres, hevname⟩, cf, hcf, hct, ?_, ?_, ?_⟩
  · rw [hsrc, hbsrc, Option.getD_some, hcs, hsrcres]
  · rw [hcs, hsrcres]
  · rw [hid, hbid]
  · rw [hidn, hbidn, Option.getD_some]

/-- Witness for C1 against a catalog in which two events share an
attribute name: the single emitted match is scoped to `purchase`. -/
theorem event_attr_scoping_witness :
    resW.matched_field.source = resW.source ∧
    (∃ ev ∈ eventResultsW, resW.source = ev.matched_field.idname ∧
      resW.event_name = ev.matched_field.source_name) ∧
    ∃ cf ∈ catalogW, cf.source_type = "EVENT_ATTRIBUTE" ∧ cf.source = resW.source ∧
      cf.id = resW.matched_field.id ∧ cf.idname = resW.matched_field.idname :=
  event_attr_scoping catalogW simW encodeUnit (fun _ _ => []) (fun _ _ => [])
    (13/20) (1/20) eventResultsW resW (by decide)

/-- C8: every aggregated event-attribute entry has `event_idname` equal to
the empty string — the resolver stores the parent event under `source` and
`event_name` while the aggregator reads the never-written `event_idname`
key — and likewise every event-attribute ambiguity candidate; the parent
event remains recoverable through `event_name`. -/
theorem event_attr_event_idname_empty {E : Type} (C : Collaborators E)
    (simTh ambTh aggTh ambTh₂ : ℚ) (er : List EventResult)
    (pr : List ProfileResult) (er₂ : List EventResult) :
    (∀ e ∈ process_event_attr_results aggTh (search_event_attributes_node C simTh ambTh er),
      e.event_idname = "" ∧ ∃ r ∈ search_event_attributes_node C simTh ambTh er,
        e.event_name = r.event_name ∧ e.idname = r.matched_field.idname) ∧
    (∀ g ∈ (detect_ambiguities pr er₂ (search_event_attributes_node C simTh ambTh er) ambTh₂).1,
      g.category = "event_attribute" → ∀ c ∈ g.candidates, c.event_idname = some "") := by
  have hnode := search_event_attributes_node_no_event_idname C simTh ambTh er
  constructor
  · intro e he
    rcases dedupProcess_mem mkEventAttrEntry aggTh _ e he with ⟨r, hr, rfl⟩
    refine ⟨?_, r, hr, rfl, rfl⟩
    simp [mkEventAttrEntry, hnode r hr]
  · intro g hg hcat c hc
    rw [detect_ambiguities_fst] at hg
    rcases List.mem_append.mp hg with hg2 | hgc
    · rcases List.mem_append.mp hg2 with hgp | hge
      · have h := (ambiguousOf_mem hgp).1
        rw [hcat] at h
        exact absurd h (by decide)
      · have h := (ambiguousOf_mem hge).1
        rw [hcat] at h
        exact absurd h (by decide)
    · rcases ambiguousOf_mem hgc with ⟨_, gg, hgg, hcands⟩
      rw [hcands] at hc
      refine buildGroupsGo_cand ambTh₂ EventAttrResult.original_query
        (fun r => r.matched_field.score) eventAttrCand
        (fun c => c.event_idname = some "")
        (search_event_attributes_node C simTh ambTh er) [] (by simp) ?_ gg hgg c hc
      intro r hr
      simp only [eventAttrCand]
      rw [hnode r hr]
      rfl

/-- Witness for C8 at the two-events-shared-name scenario: the one
aggregated entry has an empty `event_idname` and carries the parent only in
`event_name`. -/
theorem event_attr_event_idname_empty_witness :
    (mkEventAttrEntry resW).event_idname = "" ∧
    ∃ r ∈ earW, (mkEventAttrEntry resW).event_name = r.event_name ∧
      (mkEventAttrEntry resW).idname = r.matched_field.idname :=
  (event_attr_event_idname_empty collabW (13/20) (1/20) (13/20) (3/4)
    eventResultsW [] []).1 (mkEventAttrEntry resW) (by decide)

/-- C9: each resolver emits at most one match per canonical query, with the
query text passed through; hence whenever the query texts are pairwise
distinct within each category, the Aggregator's ambiguity grouping reports
no ambiguous group at all. -/
theorem distinct_queries_no_ambiguous_groups {E : Type} (C : Collaborators E)
    (simTh ambTh₁ ambTh₂ aggTh : ℚ) (pa : List ProfileAttrQ) (evs : List EventQ)
    (h1 : (pa.map (·.query_text)).Nodup)
    (h2 : (evs.map (·.event_description)).Nodup)
    (h3 : (evs.flatMap (·.event_attributes)).Nodup) :
    ((search_profiles_node C simTh ambTh₁ pa).map (·.original_query)).Sublist
      (pa.map (·.query_text)) ∧
    ((search_events_node C simTh evs).map (·.original_query)).Sublist
      (evs.map (·.event_description)) ∧
    ((search_event_attributes_node C simTh ambTh₂
        (search_events_node C simTh evs)).map (·.original_query)).Sublist
      (evs.flatMap (·.event_attributes)) ∧
    detect_ambiguities (search_profiles_node C simTh ambTh₁ pa)
      (search_events_node C simTh evs)
      (search_event_attributes_node C simTh ambTh₂ (search_events_node C simTh evs))
      aggTh = ([], false) := by
  have s1 := search_profiles_node_queries_sublist C simTh ambTh₁ pa
  have s2 := search_events_node_queries_sublist C simTh evs
  have s3a := search_event_attributes_node_queries_sublist C simTh ambTh₂
    (search_events_node C simTh evs)
  have s3b : List.Sublist ((search_events_node C simTh evs).flatMap (·.event_attributes))
      (evs.flatMap (·.event_attributes)) := by
    rw [List.flatMap_def, List.flatMap_def]
    exact flatten_sublist_mono (search_events_node_attrs_sublist C simTh evs)
  have s3 := s3a.trans s3b
  exact ⟨s1, s2, s3, detect_ambiguities_eq_nil aggTh
    (List.Nodup.sublist s1 h1) (List.Nodup.sublist s2 h2) (List.Nodup.sublist s3 h3)⟩

/-- Witness for C9 at a concrete input with distinct query texts and
above-threshold matches in every category. -/
theorem distinct_queries_no_ambiguous_groups_witness :
    detect_ambiguities (search_profiles_node collabC9 (13/20) (1/20) [⟨"年龄", "年龄"⟩])
      (search_events_node collabC9 (13/20) [⟨"购买", ["金额"]⟩])
      (search_event_attributes_node collabC9 (13/20) (1/20)
        (search_events_node collabC9 (13/20) [⟨"购买", ["金额"]⟩])) (3/4) = ([], false) :=
  (distinct_queries_no_ambiguous_groups collabC9 (13/20) (1/20) (1/20) (3/4)
    [⟨"年龄", "年龄"⟩] [⟨"购买", ["金额"]⟩] (by decide) (by decide) (by decide)).2.2.2

/-- C10: the graph wiring threads one shared similarity threshold through
the resolver nodes and the aggregator; every match a resolver emits already
scores at or above it, so the aggregator's threshold filter removes
nothing — its processed lists equal the sort-and-deduplicate-only pass. -/
theorem shared_threshold_filter_noop {E : Type} (C : Collaborators E)
    (simTh ambTh : ℚ) (q it : String) (pa : List ProfileAttrQ) (evs : List EventQ) :
    ((create_agent_graph_results C simTh pa evs).1.all
        fun x => decide (simTh ≤ x.matched_field.score)) = true ∧
    ((create_agent_graph_results C simTh pa evs).2.1.all
        fun x => decide (simTh ≤ x.matched_field.score)) = true ∧
    ((create_agent_graph_results C simTh pa evs).2.2.all
        fun x => decide (simTh ≤ x.matched_field.score)) = true ∧
    (run_agent_graph C simTh ambTh q it pa evs).profile_attributes
      = dedupSortOnly mkProfileEntry (create_agent_graph_results C simTh pa evs).1 ∧
    (run_agent_graph C simTh ambTh q it pa evs).events
      = dedupSortOnly mkEventEntry (create_agent_graph_results C simTh pa evs).2.1 ∧
    (run_agent_graph C simTh ambTh q it pa evs).event_attributes
      = dedupSortOnly mkEventAttrEntry (create_agent_graph_results C simTh pa evs).2.2 := by
  have h1 := create_agent_graph_results_fst_scores C simTh pa evs
  have h2 := create_agent_graph_results_snd_scores C simTh pa evs
  have h3 := create_agent_graph_results_thd_scores C simTh pa evs
  refine ⟨?_, ?_, ?_, ?_, ?_, ?_⟩
  · rw [List.all_eq_true]; intro x hx; exact decide_eq_true (h1 x hx)
  · rw [List.all_eq_true]; intro x hx; exact decide_eq_true (h2 x hx)
  · rw [List.all_eq_true]; intro x hx; exact decide_eq_true (h3 x hx)
  · exact dedupProcess_eq_dedupSortOnly mkProfileEntry simTh _ h1
  · exact dedupProcess_eq_dedupSortOnly mkEventEntry simTh _ h2
  · exact dedupProcess_eq_dedupSortOnly mkEventAttrEntry simTh _ h3
